import Mathlib

/-
Verification of the humanlog repository: a human-readable slog.Handler.
Shallow embedding of handler.go (record rendering, attribute formatting,
quoting heuristic, handler derivation) and humanlog.go (construction),
plus a model of Go's strconv.ParseFloat syntax acceptance, which
needsQuoting consults.

Go strings are modelled as Lean String / List Char (one element per rune;
the repository's rendering logic is byte-oriented only in ways that
coincide with runes on the ASCII inputs the rules distinguish).
-/

namespace Humanlog

/-- strings.Join: join a list of strings with a separator. -/
def goJoin (sep : String) : List String → String
  | [] => ""
  | [s] => s
  | s :: rest => s ++ sep ++ goJoin sep rest

/-- Go strconv's lower(c) = c | 0x20, on the numeric value of the character. -/
def lowByte (c : Char) : Nat := c.toNat ||| 32

/-- ASCII decimal digit test, as Go's comparisons against the 0-9 range. -/
def isDigitChar (c : Char) : Bool := 48 ≤ c.toNat && c.toNat ≤ 57

/-- Hex-letter test used by readFloat: lower(c) between a and f. -/
def isHexLetterChar (c : Char) : Bool := 97 ≤ lowByte c && lowByte c ≤ 102

/-- Case-folding of an ASCII upper-case letter, as in Go's
commonPrefixLenIgnoreCase (only A-Z are folded). -/
def foldLower (c : Char) : Char :=
  if 65 ≤ c.toNat && c.toNat ≤ 90 then Char.ofNat (c.toNat + 32) else c

/-- Model of Go strconv's commonPrefixLenIgnoreCase: the number of leading
positions of s matching the (lower-case) pattern, case-insensitively. -/
def commonLenIgnoreCase : List Char → List Char → Nat
  | c :: s, p :: ps => if foldLower c = p then commonLenIgnoreCase s ps + 1 else 0
  | _, _ => 0

def infinityChars : List Char := ['i', 'n', 'f', 'i', 'n', 'i', 't', 'y']

def nanChars : List Char := ['n', 'a', 'n']

/-- Model of Go strconv's special: recognizes inf/infinity (optionally
signed) and nan (unsigned), case-insensitively, returning the number of
characters consumed. The sign case falls through to the infinity check
only, exactly as the Go switch does. -/
def special : List Char → Option Nat
  | [] => none
  | c :: rest =>
    if c = '+' ∨ c = '-' then
      let n := commonLenIgnoreCase rest infinityChars
      if n = 3 ∨ n = 8 then some (1 + n) else none
    else if c = 'i' ∨ c = 'I' then
      let n := commonLenIgnoreCase (c :: rest) infinityChars
      if n = 3 ∨ n = 8 then some n else none
    else if c = 'n' ∨ c = 'N' then
      if commonLenIgnoreCase (c :: rest) nanChars = 3 then some 3 else none
    else none

/-- Mantissa scan of Go strconv's readFloat: consumes digits (hex digits
when hex), underscores, and at most one dot. Arguments: remaining input,
sawdot, sawdigits, underscores. Returns (consumed, sawdigits, underscores). -/
def mantScan (hex : Bool) : List Char → Bool → Bool → Bool → Nat × Bool × Bool
  | [], _, sd, us => (0, sd, us)
  | c :: rest, sawdot, sd, us =>
    if c = '_' then
      let (n, sd2, us2) := mantScan hex rest sawdot sd true
      (n + 1, sd2, us2)
    else if c = '.' then
      if sawdot then (0, sd, us)
      else
        let (n, sd2, us2) := mantScan hex rest true sd us
        (n + 1, sd2, us2)
    else if isDigitChar c || (hex && isHexLetterChar c) then
      let (n, sd2, us2) := mantScan hex rest sawdot true us
      (n + 1, sd2, us2)
    else (0, sd, us)

/-- Exponent-digit scan of readFloat: consumes decimal digits and
underscores. Returns (consumed, underscores). -/
def expDigitScan : List Char → Bool → Nat × Bool
  | [], us => (0, us)
  | c :: rest, us =>
    if c = '_' then
      let (n, us2) := expDigitScan rest true
      (n + 1, us2)
    else if isDigitChar c then
      let (n, us2) := expDigitScan rest us
      (n + 1, us2)
    else (0, us)

/-- Exponent part of readFloat: expChar is the numeric value of e (decimal)
or p (hex). A hex mantissa without an exponent fails; a started but
malformed exponent fails the whole parse (Go does not backtrack here).
Returns (consumed, underscores) on success. -/
def expScan (expChar : Nat) (hex : Bool) (l : List Char) (us : Bool) :
    Option (Nat × Bool) :=
  match l with
  | [] => if hex then none else some (0, us)
  | c :: rest =>
    if lowByte c = expChar then
      match rest with
      | [] => none
      | d :: rest2 =>
        if d = '+' ∨ d = '-' then
          match rest2 with
          | [] => none
          | e :: _ =>
            if isDigitChar e then
              let (n, us2) := expDigitScan rest2 us
              some (1 + 1 + n, us2)
            else none
        else if isDigitChar d then
          let (n, us2) := expDigitScan rest us
          some (1 + n, us2)
        else none
    else if hex then none
    else some (0, us)

/-- Loop of Go strconv's underscoreOK. saw encodes the last character
class: 0 = start, 1 = digit or base prefix, 2 = underscore, 3 = other. -/
def underscoreOKLoop (hexOK : Bool) : List Char → Nat → Bool
  | [], saw => saw ≠ 2
  | c :: rest, saw =>
    if isDigitChar c || (hexOK && isHexLetterChar c) then
      underscoreOKLoop hexOK rest 1
    else if c = '_' then
      if saw ≠ 1 then false else underscoreOKLoop hexOK rest 2
    else if saw = 2 then false
    else underscoreOKLoop hexOK rest 3

/-- Model of Go strconv's underscoreOK: underscores must sit between digits
or between a base prefix and a digit. -/
def underscoreOK (s : List Char) : Bool :=
  let s1 := match s with
    | c :: rest => if c = '-' ∨ c = '+' then rest else s
    | [] => s
  match s1 with
  | c0 :: c1 :: rest =>
    if c0 = '0' && (lowByte c1 = 98 || lowByte c1 = 111 || lowByte c1 = 120) then
      underscoreOKLoop (lowByte c1 = 120) rest 1
    else underscoreOKLoop false s1 0
  | _ => underscoreOKLoop false s1 0

/-- Syntax acceptance of Go strconv's readFloat: optional sign, optional 0x
base, mantissa with at most one dot and at least one digit, optional
(mandatory for hex) exponent, and the underscore placement check. Returns
the number of characters consumed on success. -/
def readFloat (s : List Char) : Option Nat :=
  let signRes : Nat × List Char :=
    match s with
    | c :: rest => if c = '+' ∨ c = '-' then (1, rest) else (0, s)
    | [] => (0, s)
  let nSign := signRes.1
  let s1 := signRes.2
  let hexRes : Bool × Nat × List Char :=
    match s1 with
    | c0 :: c1 :: rest =>
      if c0 = '0' && lowByte c1 = 120 then (true, 2, rest) else (false, 0, s1)
    | _ => (false, 0, s1)
  let hex := hexRes.1
  let nPre := hexRes.2.1
  let s2 := hexRes.2.2
  let (nMant, sawdigits, us1) := mantScan hex s2 false false false
  if sawdigits = false then none
  else
    let s3 := s2.drop nMant
    let expChar : Nat := if hex then 112 else 101
    match expScan expChar hex s3 us1 with
    | none => none
    | some (nExp, us2) =>
      let i := nSign + nPre + nMant + nExp
      if us2 && !(underscoreOK (s.take i)) then none else some i

/-- Syntactic acceptance of Go's strconv.ParseFloat(s, 64): special values
first, then readFloat, and the whole input must be consumed. Out-of-range
inputs (which Go reports as a range error) are treated as accepted here;
this cannot change needsQuoting, since every syntactically valid number
also passes its character scan unquoted. -/
def parseFloat64Ok (l : List Char) : Bool :=
  match special l with
  | some n => n = l.length
  | none =>
    match readFloat l with
    | some i => i = l.length
    | none => false

/-- Character test of needsQuoting: at most space, or one of the special
characters equals sign, double quote, single quote, backtick, square
brackets, braces (characters 61, 34, 39, 96, 91, 93, 123, 125). -/
def isSpecialChar (r : Char) : Bool :=
  r.toNat ≤ 32 || r.toNat = 61 || r.toNat = 34 || r.toNat = 39 ||
  r.toNat = 96 || r.toNat = 91 || r.toNat = 93 || r.toNat = 123 || r.toNat = 125

/-- needsQuoting from handler.go: empty strings quote; strings parsing as
floats do not; the reserved literals true/false/nil quote; otherwise quote
iff some character is at most space or special. -/
def needsQuoting (s : String) : Bool :=
  if s = "" then true
  else if parseFloat64Ok s.data then false
  else if s = "true" ∨ s = "false" ∨ s = "nil" then true
  else s.data.any isSpecialChar

/-! ## Data model: levels, options, values, attributes -/

/-- slog.LevelDebug. -/
def levelDebug : Int := -4

/-- slog.LevelInfo. -/
def levelInfo : Int := 0

/-- slog.LevelWarn. -/
def levelWarn : Int := 4

/-- slog.LevelError. -/
def levelError : Int := 8

def colorReset : String := "\x1b[0m"

def colorRed : String := "\x1b[31m"

def colorYellow : String := "\x1b[33m"

def colorBlue : String := "\x1b[34m"

def colorGray : String := "\x1b[90m"

/-- Fixed default width for the message field (the messageWidth constant). -/
def messageWidth : Nat := 40

/-- Options from the repository's options file. The file carrying the
current Options struct is absent from the sources; its fields are exactly
the ones handler.go and the construction function read
(Level, Writer, TimeFormat, DisableColor, AddSource, MessageWidth,
UseJSON). The writer is an opaque sink identity; none models a nil
io.Writer. -/
structure Options where
  level : Int
  writer : Option Nat
  timeFormat : String
  disableColor : Bool
  addSource : Bool
  messageWidth : Int
  useJSON : Bool
deriving DecidableEq

/-- Modelled from the spec: DefaultOptions of the missing options file —
minimum level info, time format 15:04:05, color enabled, call-site capture
enabled, message width 40, JSON disabled, no writer yet. -/
def DefaultOptions : Options :=
  { level := levelInfo
    writer := none
    timeFormat := "15:04:05"
    disableColor := false
    addSource := true
    messageWidth := 40
    useJSON := false }

/-- The slog.Value kinds formatAttr distinguishes: strings, values of the
generic kind holding an error, the generic nil (the zero Value), and the
default branch represented by integers and booleans. The time and duration
kinds are omitted: no claim exercises them. -/
inductive GoValue where
  | vstr (s : String)
  | vint (n : Int)
  | vbool (b : Bool)
  | verr (msg : String)
  | vnil
deriving DecidableEq

/-- slog.Attr: a key and a value. -/
structure Attr where
  key : String
  value : GoValue
deriving DecidableEq

/-- The zero slog.Attr{}: empty key, zero (generic nil) value. -/
def zeroAttr : Attr := { key := "", value := GoValue.vnil }

/-- Go's val.String() for the default branch of formatAttr: decimal for
integers, true/false for booleans, the fmt rendering of a nil any. -/
def valString : GoValue → String
  | GoValue.vstr s => s
  | GoValue.vint n => toString n
  | GoValue.vbool b => if b then "true" else "false"
  | GoValue.verr m => m
  | GoValue.vnil => "<nil>"

/-- One character of Go's strconv.Quote (the %q verb), modelled exactly on
the ASCII range: common escapes, escaped quote and backslash, printable
characters verbatim; other characters get a u-escape (an approximation of
the x/u escapes — no claim depends on quoting outside printable ASCII). -/
def quoteRune (c : Char) : List Char :=
  if c.toNat = 34 then [Char.ofNat 92, Char.ofNat 34]
  else if c.toNat = 92 then [Char.ofNat 92, Char.ofNat 92]
  else if c.toNat = 10 then [Char.ofNat 92, 'n']
  else if c.toNat = 9 then [Char.ofNat 92, 't']
  else if c.toNat = 13 then [Char.ofNat 92, 'r']
  else if 32 ≤ c.toNat && c.toNat ≤ 126 then [c]
  else [Char.ofNat 92, 'u'] ++ (Nat.toDigits 16 c.toNat)

/-- Go's %q applied to a string: quoted and escaped. -/
def goQuote (s : String) : String :=
  String.mk (Char.ofNat 34 :: s.data.foldr (fun c acc => quoteRune c ++ acc) [Char.ofNat 34])

/-- formatAttr from handler.go: empty string for the zero attribute;
strings quoted when needsQuoting says so; error values always quoted;
otherwise the default string rendering. The disableColor parameter exists
in the source signature and is unused there too. -/
def formatAttr (a : Attr) (disableColor : Bool) : String :=
  if a = zeroAttr then ""
  else
    match a.value with
    | GoValue.vstr s =>
      if needsQuoting s then a.key ++ "=" ++ goQuote s else a.key ++ "=" ++ s
    | GoValue.verr m => a.key ++ "=" ++ goQuote m
    | v => a.key ++ "=" ++ valString v

/-- formatLevel from handler.go: fixed five-character upper-case token,
wrapped in a color escape pair unless color is disabled. -/
def formatLevel (level : Int) (disableColor : Bool) : String :=
  let pair : String × String :=
    if levelError ≤ level then ("ERROR", colorRed)
    else if levelWarn ≤ level then ("WARN ", colorYellow)
    else if levelInfo ≤ level then ("INFO ", colorBlue)
    else ("DEBUG", colorGray)
  if disableColor then pair.1 else pair.2 ++ pair.1 ++ colorReset

/-! ## The handler -/

/-- The effective message width of Handle: the configured width, or the
default 40 when the configured width is zero or negative. -/
def effWidth (w : Int) : Nat := if w ≤ 0 then messageWidth else w.toNat

/-- fmt.Sprintf with the %-*s verb: left-align and pad with spaces to the
width; strings already at least that long are unchanged. -/
def padTo (width : Nat) (m : List Char) : List Char :=
  m ++ List.replicate (width - m.length) ' '

/-- The message formatting of Handle (handler.go lines 69-83): truncate
with an ellipsis when longer than the effective width (hard truncation
when the width is at most 3), then left-align and pad. -/
def formatMessage (msgWidth : Int) (message : List Char) : List Char :=
  let width := effWidth msgWidth
  if width < message.length then
    if 3 < width then padTo width (message.take (width - 3) ++ ['.', '.', '.'])
    else padTo width (message.take width)
  else padTo width message

/-- The text-mode Handler state: options, pre-bound attributes, group
segments. The embedded delegate slog handler of the source is represented
by the options it was built from (its enabledness test reads only the
configured level). -/
structure Handler where
  opts : Options
  attrs : List Attr
  groups : List String
deriving DecidableEq

/-- A log record: the timestamp is carried as its rendering under the
configured layout (Go time formatting is outside the claims); source is
the resolved call-site frame, none when the program counter is zero. -/
structure Record where
  timeStr : String
  level : Int
  message : String
  attrs : List Attr
  source : Option (String × Int)
deriving DecidableEq

/-- Enabled from handler.go: delegates to the embedded slog handler, which
was constructed with the configured minimum level and reports
level at least that minimum. -/
def Handler.Enabled (h : Handler) (level : Int) : Bool :=
  h.opts.level ≤ level

/-- appendAttrs from handler.go: dot-join the group segments, put the
joined path (when non-empty) before each key, format, and append. -/
def Handler.appendAttrs (h : Handler) (attrs : List String) (newAttrs : List Attr) :
    List String :=
  let pre := goJoin "." h.groups
  attrs ++ newAttrs.map (fun a =>
    let key := if pre = "" then a.key else pre ++ "." ++ a.key
    formatAttr { key := key, value := a.value } h.opts.disableColor)

/-- The base filename: everything after the last slash, as the
strings.LastIndex computation in Handle. -/
def shortFileName (f : String) : String :=
  (f.splitOn "/").getLastD f

/-- The attribute-string collection of Handle: pre-bound attributes first,
then the record's attributes one at a time, then the synthesized source
attribute when call-site capture is on and a frame with a non-empty file
is present (the source attribute bypasses the group path, as in the
source). -/
def Handler.collectAttrs (h : Handler) (r : Record) : List String :=
  let base := h.appendAttrs [] h.attrs
  let withRec := r.attrs.foldl (fun acc a => h.appendAttrs acc [a]) base
  if h.opts.addSource then
    match r.source with
    | some (file, line) =>
      if file = "" then withRec
      else withRec ++
        [formatAttr
          { key := "source"
            value := GoValue.vstr (shortFileName file ++ ":" ++ toString line) }
          h.opts.disableColor]
    | none => withRec
  else withRec

/-- The text-mode line of Handle: time in brackets, level, fixed-width
message, then the space-joined attribute strings when any were collected,
then a newline. -/
def Handler.handleLine (h : Handler) (r : Record) : String :=
  let head := "[" ++ r.timeStr ++ "] " ++ formatLevel r.level h.opts.disableColor
    ++ " " ++ String.mk (formatMessage h.opts.messageWidth r.message.data)
  let attrs := h.collectAttrs r
  (if 0 < attrs.length then head ++ " " ++ goJoin " " attrs else head) ++ "\n"

/-- What Handle writes: a text line, or bytes produced by the delegate
JSON handler (opaque here). -/
inductive Output where
  | text (line : String)
  | jsonDelegated
deriving DecidableEq

/-- Handle from handler.go: nothing at all when the level is not enabled;
delegation in JSON mode; otherwise the rendered text line. -/
def Handler.Handle (h : Handler) (r : Record) : Option Output :=
  if h.Enabled r.level = false then none
  else if h.opts.useJSON then some Output.jsonDelegated
  else some (Output.text (h.handleLine r))

/-- WithAttrs from handler.go: in JSON mode a fresh handler around the
delegate; in text mode a copy of the receiver with the new attributes
appended (the value-level reading of h2 := *h followed by append — the
backing-array sharing of that append is modelled separately below). -/
def Handler.WithAttrs (h : Handler) (attrs : List Attr) : Handler :=
  if h.opts.useJSON then { opts := h.opts, attrs := [], groups := [] }
  else { h with attrs := h.attrs ++ attrs }

/-- WithGroup from handler.go: in JSON mode a fresh handler around the
delegate; in text mode a copy with the name appended to the group
segments — with no check for an empty name. -/
def Handler.WithGroup (h : Handler) (name : String) : Handler :=
  if h.opts.useJSON then { opts := h.opts, attrs := [], groups := [] }
  else { h with groups := h.groups ++ [name] }

/-- NewHandler from humanlog.go: defaults when no options are given, an
unrecoverable abort (modelled as the error branch) on a nil writer,
otherwise a handler holding a copy of the options with the writer set and
empty attribute and group state. -/
def NewHandler (w : Option Nat) (opts : Option Options) : Except String Handler :=
  let o := opts.getD DefaultOptions
  match w with
  | none => Except.error "humanlog: nil writer"
  | some wr =>
    Except.ok { opts := { o with writer := some wr }, attrs := [], groups := [] }

/-! ## Go slices with capacity: the backing-array semantics of append

The text-mode WithAttrs of handler.go is h2 := *h followed by
h2.attrs = append(h2.attrs, attrs...). The copied slice header shares the
parent's backing array, so when that array has spare capacity the append
writes into shared memory. This refined model captures Go's append:
a store of backing arrays, slice headers (array id, length, capacity),
in-place writes when capacity suffices, and reallocation with the
doubling growth rule for small slices (the runtime's size-class rounding
can only enlarge capacities further, never remove the sharing). -/

/-- A backing-array store: array i is the list at index i, its length is
the array's capacity. -/
abbrev Store := List (List Attr)

/-- A Go slice header over the store. -/
structure GoSlice where
  bufId : Nat
  len : Nat
  cap : Nat
deriving DecidableEq

/-- The nil slice. -/
def nilSlice : GoSlice := { bufId := 0, len := 0, cap := 0 }

/-- The elements a slice denotes: the first len cells of its array. -/
def sliceList (st : Store) (sl : GoSlice) : List Attr :=
  ((st.getD sl.bufId []).take sl.len)

/-- Write one cell of one backing array. -/
def storeSet (st : Store) (bufId pos : Nat) (a : Attr) : Store :=
  st.enum.map (fun p => if p.1 = bufId then p.2.set pos a else p.2)

/-- Go's append growth for small slices: double the capacity, or jump to
the needed length when doubling is not enough. -/
def growCap (newLen oldCap : Nat) : Nat :=
  if 2 * oldCap < newLen then newLen else 2 * oldCap

/-- Go's append: write in place into spare capacity, else allocate a grown
array (fresh cells hold the zero attribute, as Go zeroes new memory). -/
def goAppend (st : Store) (sl : GoSlice) (xs : List Attr) : Store × GoSlice :=
  let newLen := sl.len + xs.length
  if newLen ≤ sl.cap then
    (xs.enum.foldl (fun acc p => storeSet acc sl.bufId (sl.len + p.1) p.2) st,
     { sl with len := newLen })
  else
    let newCap := growCap newLen sl.cap
    let data := sliceList st sl ++ xs
    let buf := data ++ List.replicate (newCap - data.length) zeroAttr
    (st ++ [buf], { bufId := st.length, len := newLen, cap := newCap })

/-- A text-mode handler whose pre-bound attributes live in the slice
store — the precise reading of the attrs field of handler.go. -/
structure HandlerG where
  opts : Options
  attrsSl : GoSlice
  groups : List String
deriving DecidableEq

/-- The text-mode WithAttrs of handler.go over the slice model:
h2 := *h copies the slice header, then append. -/
def HandlerG.WithAttrsG (st : Store) (h : HandlerG) (attrs : List Attr) :
    Store × HandlerG :=
  let res := goAppend st h.attrsSl attrs
  (res.1, { h with attrsSl := res.2 })

/-- The pre-bound attributes a slice-model handler renders, read through
the store. -/
def HandlerG.boundAttrs (st : Store) (h : HandlerG) : List Attr :=
  sliceList st h.attrsSl

/-! ## Concrete handlers and records used to evaluate the code -/

/-- A plain text-mode configuration: everything minimal, color off so the
rendered lines are plain strings. -/
def optsPlain : Options :=
  { level := levelDebug
    writer := some 0
    timeFormat := "15:04:05"
    disableColor := true
    addSource := false
    messageWidth := 0
    useJSON := false }

/-- A fresh text-mode handler over optsPlain. -/
def baseH : Handler := { opts := optsPlain, attrs := [], groups := [] }

/-- A fresh handler whose minimum level is info. -/
def infoH : Handler :=
  { opts := { optsPlain with level := levelInfo }, attrs := [], groups := [] }

/-- A record with no attributes. -/
def recEmpty : Record :=
  { timeStr := "t", level := levelInfo, message := "m", attrs := [], source := none }

/-- A debug-level record. -/
def recDebug : Record := { recEmpty with level := levelDebug }

/-- A record carrying one string attribute k=v. -/
def recK : Record :=
  { recEmpty with attrs := [{ key := "k", value := GoValue.vstr "v" }] }

/-- A record carrying one string attribute a=1. -/
def recA1 : Record :=
  { recEmpty with attrs := [{ key := "a", value := GoValue.vstr "1" }] }

/-- recA1 with a zero-value attribute appended. -/
def recA1Zero : Record :=
  { recEmpty with attrs := [{ key := "a", value := GoValue.vstr "1" }, zeroAttr] }

def c5x : Attr := { key := "k1", value := GoValue.vstr "1" }

def c5y : Attr := { key := "k2", value := GoValue.vstr "2" }

def c5z : Attr := { key := "k3", value := GoValue.vstr "3" }

def c5a : Attr := { key := "ka", value := GoValue.vstr "va" }

def c5b : Attr := { key := "kb", value := GoValue.vstr "vb" }

/-- A fresh slice-model handler with a nil attrs slice. -/
def c5h0 : HandlerG := { opts := optsPlain, attrsSl := nilSlice, groups := [] }

/-- Three successive attribute derivations; the third allocation doubles
capacity 2 to 4, leaving one spare cell behind length 3. -/
def c5s1 : Store × HandlerG := c5h0.WithAttrsG [] [c5x]

def c5s2 : Store × HandlerG := (c5s1.2).WithAttrsG c5s1.1 [c5y]

def c5s3 : Store × HandlerG := (c5s2.2).WithAttrsG c5s2.1 [c5z]

/-- Two sibling derivations from the same parent c5s3.2: each appends into
the shared spare cell. -/
def c5sibA : Store × HandlerG := (c5s3.2).WithAttrsG c5s3.1 [c5a]

def c5sibB : Store × HandlerG := (c5s3.2).WithAttrsG c5sibA.1 [c5b]

/-! ## Theorems for the claims -/

/-- C1: in text mode, with effective width W equal to the configured width
when positive and 40 otherwise, the rendered message field is the first
W-3 characters plus an ellipsis when the message is longer than W and
W exceeds 3; the first W characters without an ellipsis when W is at most
3; the message left-aligned and space-padded to exactly W otherwise — and
its length is always exactly W. -/
theorem formatMessage_width_spec (w : Int) (m : List Char) :
    ((0 < w → effWidth w = w.toNat) ∧ (w ≤ 0 → effWidth w = 40)) ∧
    (formatMessage w m).length = effWidth w ∧
    (effWidth w < m.length → 3 < effWidth w →
      formatMessage w m = m.take (effWidth w - 3) ++ ['.', '.', '.']) ∧
    (effWidth w < m.length → effWidth w ≤ 3 →
      formatMessage w m = m.take (effWidth w)) ∧
    (m.length ≤ effWidth w →
      formatMessage w m = m ++ List.replicate (effWidth w - m.length) ' ') := by
  have heff : ((0 < w → effWidth w = w.toNat) ∧ (w ≤ 0 → effWidth w = 40)) := by
    constructor
    · intro h0
      unfold effWidth
      rw [if_neg (by omega)]
    · intro h0
      unfold effWidth
      rw [if_pos h0]
      rfl
  by_cases h1 : effWidth w < m.length
  · by_cases h2 : 3 < effWidth w
    · have hlen : (m.take (effWidth w - 3) ++ ['.', '.', '.']).length = effWidth w := by
        simp [List.length_take]
        omega
      have hfm : formatMessage w m = m.take (effWidth w - 3) ++ ['.', '.', '.'] := by
        simp only [formatMessage, padTo]
        rw [if_pos h1, if_pos h2, hlen, Nat.sub_self, List.replicate_zero,
          List.append_nil]
      exact ⟨heff, by rw [hfm, hlen], fun _ _ => hfm,
        fun _ hle => absurd h2 (by omega), fun hle => absurd h1 (by omega)⟩
    · have hlen : (m.take (effWidth w)).length = effWidth w := by
        rw [List.length_take]
        omega
      have hfm : formatMessage w m = m.take (effWidth w) := by
        simp only [formatMessage, padTo]
        rw [if_pos h1, if_neg h2, hlen, Nat.sub_self, List.replicate_zero,
          List.append_nil]
      exact ⟨heff, by rw [hfm, hlen], fun _ h3 => absurd h3 h2, fun _ _ => hfm,
        fun hle => absurd h1 (by omega)⟩
  · have hfm : formatMessage w m = m ++ List.replicate (effWidth w - m.length) ' ' := by
      simp only [formatMessage, padTo]
      rw [if_neg h1]
    refine ⟨heff, ?_, fun hlt _ => absurd hlt h1, fun hlt _ => absurd hlt h1,
      fun _ => hfm⟩
    rw [hfm, List.length_append, List.length_replicate]
    omega

/-- C1 witness: the theorem applied at width 10 with a 12-character
message, width 2 with a 6-character message, and width 0 (effective 40)
with a 12-character message. -/
theorem formatMessage_width_spec_check :
    formatMessage 10 "0123456789AB".data = "0123456...".data ∧
    formatMessage 2 "abcdef".data = "ab".data ∧
    formatMessage 0 "Test message".data
      = "Test message".data ++ List.replicate 28 ' ' := by
  refine ⟨?_, ?_, ?_⟩
  · have h := (formatMessage_width_spec 10 "0123456789AB".data).2.2.1
      (by decide) (by decide)
    exact h.trans (by decide)
  · have h := (formatMessage_width_spec 2 "abcdef".data).2.2.2.1
      (by decide) (by decide)
    exact h.trans (by decide)
  · have h := (formatMessage_width_spec 0 "Test message".data).2.2.2.2 (by decide)
    exact h.trans (by decide)

/-- C2: needsQuoting is true exactly for the empty string, and otherwise
for strings that do not parse as floating-point numbers and are either a
reserved literal or contain a character at most space or a special
character; with the documented concrete values. -/
theorem needsQuoting_spec :
    (∀ s : String, needsQuoting s = true ↔
      (s = "" ∨ (parseFloat64Ok s.data = false ∧
        (s = "true" ∨ s = "false" ∨ s = "nil" ∨ s.data.any isSpecialChar = true)))) ∧
    needsQuoting "123" = false ∧ needsQuoting "12.5" = false ∧
    needsQuoting "true" = true ∧ needsQuoting "" = true ∧
    needsQuoting "hello" = false ∧ needsQuoting "hello world" = true := by
  refine ⟨fun s => ?_, by decide, by decide, by decide, by decide, by decide,
    by decide⟩
  unfold needsQuoting
  split_ifs with h1 h2 h3
  · simp [h1]
  · constructor
    · intro hF
      exact absurd hF (by simp)
    · rintro (rfl | ⟨hp, _⟩)
      · exact absurd rfl h1
      · rw [h2] at hp
        exact absurd hp (by simp)
  · have hp : parseFloat64Ok s.data = false := by
      cases hEq : parseFloat64Ok s.data with
      | false => rfl
      | true => exact absurd hEq h2
    constructor
    · intro _
      exact Or.inr ⟨hp, by tauto⟩
    · intro _
      rfl
  · have hp : parseFloat64Ok s.data = false := by
      cases hEq : parseFloat64Ok s.data with
      | false => rfl
      | true => exact absurd hEq h2
    constructor
    · intro hA
      exact Or.inr ⟨hp, Or.inr (Or.inr (Or.inr hA))⟩
    · rintro (rfl | ⟨_, h4⟩)
      · exact absurd rfl h1
      · rcases h4 with h4 | h4 | h4 | h4
        · exact absurd (Or.inl h4) h3
        · exact absurd (Or.inr (Or.inl h4)) h3
        · exact absurd (Or.inr (Or.inr h4)) h3
        · exact h4

/-- C3: the claim says the group path is applied at bind time, so a group
entered after WithAttrs must not re-qualify already-bound attributes.
The code re-joins the group path at render time: deriving with group
request, binding method=GET, then entering group sub renders
request.sub.method=GET, not the claimed request.method=GET (without the
later group the claimed request.method=GET does hold). -/
theorem withAttrs_groupPath_render_time :
    (((baseH.WithGroup "request").WithAttrs
        [{ key := "method", value := GoValue.vstr "GET" }]).WithGroup "sub").collectAttrs
        recEmpty = ["request.sub.method=GET"] ∧
    ((baseH.WithGroup "request").WithAttrs
        [{ key := "method", value := GoValue.vstr "GET" }]).collectAttrs recEmpty
      = ["request.method=GET"] ∧
    ("request.sub.method=GET" : String) ≠ "request.method=GET" := by decide

/-- C4: the claim says WithGroup with an empty name is observably a no-op.
The code appends the empty segment, so after groups request and the empty
string a record attribute k=v renders request..k=v, differing from the
request.k=v rendered without the empty group. -/
theorem withGroup_empty_not_noop :
    ((baseH.WithGroup "request").WithGroup "").collectAttrs recK
      = ["request..k=v"] ∧
    (baseH.WithGroup "request").collectAttrs recK = ["request.k=v"] ∧
    ((baseH.WithGroup "request").WithGroup "").collectAttrs recK
      ≠ (baseH.WithGroup "request").collectAttrs recK := by decide

/-- C5: under Go's append semantics, three successive single-attribute
derivations leave a backing array of length 3 and capacity 4; two sibling
derivations from that parent then write into the same spare cell, so the
second sibling's attribute kb=vb replaces the first sibling's ka=va in the
first sibling's rendered attributes — logging through the first sibling
now shows the second derivation's attribute. The parent itself is
unchanged. -/
theorem withAttrs_backing_array_overwrite :
    c5s3.2.attrsSl.len = 3 ∧ c5s3.2.attrsSl.cap = 4 ∧
    c5sibA.2.boundAttrs c5sibB.1 = [c5x, c5y, c5z, c5b] ∧
    (c5sibA.2.boundAttrs c5sibB.1).map (fun a => formatAttr a true)
      = ["k1=1", "k2=2", "k3=3", "kb=vb"] ∧
    c5a ∉ c5sibA.2.boundAttrs c5sibB.1 ∧
    c5s3.2.boundAttrs c5sibB.1 = [c5x, c5y, c5z] := by decide

/-- C6: a record whose level is not enabled produces no output at all --
Handle returns before rendering, in both text and JSON modes. -/
theorem handle_disabled_writes_nothing (h : Handler) (r : Record)
    (hd : h.Enabled r.level = false) : h.Handle r = none := by
  simp [Handler.Handle, hd]

/-- C6 witness: an info-level handler given a debug record writes
nothing. -/
theorem handle_disabled_writes_nothing_check :
    infoH.Enabled recDebug.level = false ∧ infoH.Handle recDebug = none :=
  ⟨by decide, handle_disabled_writes_nothing infoH recDebug (by decide)⟩

/-- C7: Enabled is true exactly when the level is at least the configured
minimum; the boundary level is enabled; and the level constants are
ordered debug, info, warn, error. Enabled is a pure function of the
handler and level by construction. -/
theorem enabled_iff_level_ge_min :
    (∀ (h : Handler) (l : Int), h.Enabled l = true ↔ h.opts.level ≤ l) ∧
    (∀ h : Handler, h.Enabled h.opts.level = true) ∧
    levelDebug < levelInfo ∧ levelInfo < levelWarn ∧ levelWarn < levelError := by
  refine ⟨fun h l => ?_, fun h => ?_, by decide, by decide, by decide⟩
  · simp [Handler.Enabled]
  · simp [Handler.Enabled]

/-- C8 counterexample: the code does not skip empty formatted attributes
before joining — appending a zero-value attribute to a record contributes
an empty join element and changes the rendered line (a trailing separator
space appears). -/
theorem zero_attr_changes_line :
    baseH.collectAttrs recA1Zero = ["a=1", ""] ∧
    baseH.handleLine recA1Zero ≠ baseH.handleLine recA1 := by decide

/-- C8 amended: formatAttr does return the empty string for the zero
attribute, but Handle joins every formatted result, so for a handler with
no active groups a zero-value attribute contributes an empty element to
the joined attribute list rather than being omitted. -/
theorem formatAttr_zero_empty_joined :
    (∀ dc : Bool, formatAttr zeroAttr dc = "") ∧
    (∀ (h : Handler) (acc : List String), h.groups = [] →
      h.appendAttrs acc [zeroAttr] = acc ++ [""]) := by
  refine ⟨fun dc => rfl, fun h acc hg => ?_⟩
  simp [Handler.appendAttrs, hg, goJoin, formatAttr, zeroAttr]

/-- C8 amended witness: the amended statement applied to the concrete
groupless handler. -/
theorem formatAttr_zero_empty_joined_check :
    formatAttr zeroAttr true = "" ∧
    baseH.appendAttrs ["a=1"] [zeroAttr] = ["a=1", ""] :=
  ⟨formatAttr_zero_empty_joined.1 true,
    formatAttr_zero_empty_joined.2 baseH ["a=1"] rfl⟩

/-- C9: construction with a nil sink aborts with the nil-writer panic and
yields no handler, for every options value; with a sink it always
succeeds. -/
theorem newHandler_nil_writer_aborts :
    (∀ opts : Option Options,
      NewHandler none opts = Except.error "humanlog: nil writer") ∧
    (∀ (w : Nat) (opts : Option Options),
      ∃ h2 : Handler, NewHandler (some w) opts = Except.ok h2) :=
  ⟨fun _ => rfl, fun _ _ => ⟨_, rfl⟩⟩

/-- C10: every string accepted by the float parser is rendered unquoted;
in particular the non-decimal spellings NaN, Inf, INFINITY, signed
infinities, exponent notation and hexadecimal floats parse, and such
string attribute values render bare as key=value. -/
theorem parseFloat_ok_never_quoted :
    (∀ s : String, parseFloat64Ok s.data = true → needsQuoting s = false) ∧
    parseFloat64Ok "NaN".data = true ∧ parseFloat64Ok "Inf".data = true ∧
    parseFloat64Ok "INFINITY".data = true ∧ parseFloat64Ok "-inf".data = true ∧
    parseFloat64Ok "+iNfInItY".data = true ∧ parseFloat64Ok "1e9".data = true ∧
    parseFloat64Ok "0x1p-2".data = true ∧
    formatAttr { key := "v", value := GoValue.vstr "NaN" } false = "v=NaN" ∧
    formatAttr { key := "v", value := GoValue.vstr "0x1p-2" } false
      = "v=0x1p-2" := by
  refine ⟨fun s hp => ?_, by decide, by decide, by decide, by decide, by decide,
    by decide, by decide, by decide, by decide⟩
  unfold needsQuoting
  split_ifs with h1
  · subst h1
    exact absurd hp (by decide)
  · rfl

/-- C10 witness: the universal part applied at the concrete accepted
string 1e9. -/
theorem parseFloat_ok_never_quoted_check :
    parseFloat64Ok "1e9".data = true ∧ needsQuoting "1e9" = false :=
  ⟨by decide, parseFloat_ok_never_quoted.1 "1e9" (by decide)⟩

end Humanlog
